import Mathlib

/-!
Verification of the `OwidData` pipeline (src/app/data.py).

The Python class downloads OWID environmental datasets, normalizes them
(`preprocess_datasets`), left-joins them with Natural Earth country
geometries (`merge_datasets`), and exposes query accessors
(`value_column`, `country_data`, `top_bottom_countries`,
`country_timeseries`, `country_details`).

This file gives a shallow embedding of the data model and those
operations, and proves the specified properties about them.  Tables are
lists of rows, nullable cells are `Option`s, floating-point metric
values are modelled as rationals (with an extra `Option` layer standing
for NaN where it can arise), and fallible steps return `Except`.
-/

set_option maxHeartbeats 1000000

namespace Okavango

/-- A raw CSV cell as consumed by `pd.to_numeric(..., errors="coerce")`:
either a numeric value (a number, or text parsing as one), text that does
not parse as a number, or a missing entry. -/
inductive RawCell where
  | num (q : ℚ)
  | unparseable
  | missing
deriving DecidableEq

/-- Embedding of `pd.to_numeric(col, errors="coerce")`: numeric cells keep their value,
unparseable text and missing entries become null. -/
def toNumericQ : RawCell → Option ℚ
  | .num q => some q
  | .unparseable => none
  | .missing => none

/-- Errors raised by `preprocess_datasets` / `value_column`
(`ValueError` in the source) and by the pandas `Int64` cast. -/
inductive PipelineError where
  | missingColumns (cols : List String)
  | metricProblem (candidates : List String)
  | yearCastFailure
deriving DecidableEq

deriving instance DecidableEq for Except

/-- The cast `.astype("Int64")` applied to one cell of the `to_numeric` output:
null stays null (`pd.NA`), an integral value becomes that integer, and a
non-integral value makes pandas raise
(`TypeError: cannot safely cast non-equivalent float64 to int64`). -/
def castYearCell (c : RawCell) : Except PipelineError (Option Int) :=
  match toNumericQ c with
  | none => .ok none
  | some q => if q.den = 1 then .ok (some q.num) else .error .yearCastFailure

/-- One row of a raw OWID dataset: base columns `entity`, `code`, `year`
plus the single metric column (whose name lives in `RawDataset.cols`). -/
structure RawRow where
  entity : String
  code : Option String
  year : RawCell
  metric : RawCell
deriving DecidableEq

/-- A raw OWID dataset: its column names, in order, and its rows. -/
structure RawDataset where
  cols : List String
  rows : List RawRow
deriving DecidableEq

/-- Constant `KNOWN_NON_METRIC` from the source: the columns excluded when
auto-detecting the single metric column. -/
def KNOWN_NON_METRIC : List String :=
  ["entity", "code", "year", "is_aggregate", "is_mappable"]

/-- The metric-column candidates: every column not in `KNOWN_NON_METRIC`
(order preserved, as in the Python list comprehension). -/
def metricCandidates (cols : List String) : List String :=
  cols.filter (fun c => !(KNOWN_NON_METRIC.contains c))

/-- The difference `META_COLS - set(df.columns)` rendered as `sorted(missing)`: the
required base columns absent from the dataset, alphabetically. -/
def baseMissing (cols : List String) : List String :=
  (["code", "entity", "year"]).filter (fun c => !(cols.contains c))

/-- Accessor `value_column`: re-runs the single-candidate metric detection on a
column list, failing with the candidate list when it is not unique. -/
def valueColumnOf (cols : List String) : Except PipelineError String :=
  match metricCandidates cols with
  | [c] => .ok c
  | cs => .error (.metricProblem cs)

/-- Whether the first list is a leading segment of the second. -/
def leadsList : List Char → List Char → Bool
  | [], _ => true
  | _ :: _, [] => false
  | p :: ps, c :: cs => p = c && leadsList ps cs

/-- Python's `str.startswith`: the second string opens the first. -/
def strStartsWith (s t : String) : Bool := leadsList t.data s.data

/-- The `is_aggregate` flag: `code` is null or starts with `OWID_`
(`startswith` with `na=False`). -/
def isAggregateOf : Option String → Bool
  | none => true
  | some s => strStartsWith s "OWID_"

/-- The check `fullmatch(r"[A-Za-z]{3}")`: exactly three ASCII alphabetic
characters. -/
def isIso3 (s : String) : Bool :=
  s.length == 3 && s.data.all (fun c => c.isAlpha)

/-- The `is_mappable` flag: not an aggregate, and the code fully matches the
three-letter pattern (`na=False` makes a null code fail the match). -/
def isMappableOf (code : Option String) : Bool :=
  !(isAggregateOf code) &&
    (match code with
     | none => false
     | some s => isIso3 s)

/-- A normalized row: coerced dtypes plus the two derived flags. -/
structure NormRow where
  entity : String
  code : Option String
  year : Option Int
  metric : Option ℚ
  is_aggregate : Bool
  is_mappable : Bool
deriving DecidableEq

/-- Dtype coercion and flag derivation for one row (the only per-row
fallible step is the `Int64` year cast). -/
def normalizeRow (r : RawRow) : Except PipelineError NormRow :=
  (castYearCell r.year).map (fun y =>
    { entity := r.entity
      code := r.code
      year := y
      metric := toNumericQ r.metric
      is_aggregate := isAggregateOf r.code
      is_mappable := isMappableOf r.code })

/-- Row-wise normalization of a whole dataset, propagating the first
cast failure. -/
def preprocessRows : List RawRow → Except PipelineError (List NormRow)
  | [] => .ok []
  | r :: rs =>
    match normalizeRow r, preprocessRows rs with
    | .ok n, .ok ns => .ok (n :: ns)
    | .error e, _ => .error e
    | _, .error e => .error e

/-- The composite key of `drop_duplicates(subset=["entity", "code",
"year"])`. -/
def keyOf (r : NormRow) : String × Option String × Option Int :=
  (r.entity, r.code, r.year)

/-- Embedding of `drop_duplicates(..., keep="first")`: keep a row when its key has
not been seen among earlier rows. -/
def dedupAux (seen : List (String × Option String × Option Int)) :
    List NormRow → List NormRow
  | [] => []
  | r :: rs =>
    if keyOf r ∈ seen then dedupAux seen rs
    else r :: dedupAux (keyOf r :: seen) rs

/-- Deduplication on the composite key, keeping first occurrences. -/
def dedupRows (l : List NormRow) : List NormRow := dedupAux [] l

/-- Lexicographic comparison of character lists, mirroring Python's
code-point string order used by pandas when sorting object columns. -/
def charListLe : List Char → List Char → Bool
  | [], _ => true
  | _ :: _, [] => false
  | c :: cs, d :: ds => if c = d then charListLe cs ds else decide (c < d)

/-- Python's lexicographic string order. -/
def strLeB (a b : String) : Bool := charListLe a.data b.data

/-- Null-last comparison of optional strings (`na_position="last"`). -/
def optStrLe : Option String → Option String → Bool
  | none, none => true
  | none, some _ => false
  | some _, none => true
  | some a, some b => strLeB a b

/-- Null-last comparison of optional integers (`na_position="last"`). -/
def optIntLe : Option Int → Option Int → Bool
  | none, none => true
  | none, some _ => false
  | some _, none => true
  | some a, some b => decide (a ≤ b)

/-- The lexicographic comparator of
`sort_values(by=["is_aggregate", "code", "entity", "year"],
na_position="last")` (`False` sorts before `True`). -/
def rowLE (a b : NormRow) : Bool :=
  if a.is_aggregate = b.is_aggregate then
    if a.code = b.code then
      if a.entity = b.entity then optIntLe a.year b.year
      else strLeB a.entity b.entity
    else optStrLe a.code b.code
  else !a.is_aggregate

/-- The deterministic stable sort (`kind="mergesort"`) ending
`preprocess_datasets`; `reset_index(drop=True)` is implicit in the list
representation. -/
def sortRows (l : List NormRow) : List NormRow :=
  l.insertionSort (fun a b => rowLE a b = true)

/-- The method `preprocess_datasets` applied to one dataset: validate base columns,
detect the unique metric column, coerce dtypes and derive flags row by
row, deduplicate on the composite key, sort deterministically. -/
def preprocessDataset (d : RawDataset) : Except PipelineError (List NormRow) :=
  if baseMissing d.cols ≠ [] then .error (.missingColumns (baseMissing d.cols))
  else
    match metricCandidates d.cols with
    | [_] => (preprocessRows d.rows).map (fun rs => sortRows (dedupRows rs))
    | cs => .error (.metricProblem cs)

/-- One row of the Natural Earth table: the `ISO_A3_EH` join key, the
`REGION_UN` metadata column, and an opaque geometry id (`none` models a
missing geometry). -/
structure GeoRow where
  iso_a3_eh : String
  region_un : String
  geometry : Option Nat
deriving DecidableEq

/-- One row of the joined view: the geometry row (left side) and, when
the join key matched, the dataset row (right side, else all-null). -/
structure JoinedRow where
  geo : GeoRow
  data : Option NormRow
deriving DecidableEq

/-- The rows a left join contributes for one left-side geometry row:
one output row per matching mappable row, or a single null-filled row
when no mappable row carries the geometry's code. -/
def joinBlock (ds : List NormRow) (g : GeoRow) : List JoinedRow :=
  match (ds.filter (fun r => r.is_mappable)).filter
      (fun r => r.code == some g.iso_a3_eh) with
  | [] => [{ geo := g, data := none }]
  | ms => ms.map (fun r => { geo := g, data := some r })

/-- The method `merge_datasets` for one dataset: filter to `is_mappable` rows, then
left-join with the world table (`left_on="ISO_A3_EH"`,
`right_on="code"`, `how="left"`), the world table being the left
relation. -/
def mergeDatasets (world : List GeoRow) (ds : List NormRow) : List JoinedRow :=
  world.flatMap (joinBlock ds)

/-- The per-dataset state the query accessors read: the normalized table
(`self.datasets[key]`) and the joined view (`self.merged[key]`). -/
structure OwidState where
  datasets : List NormRow
  merged : List JoinedRow
deriving DecidableEq

/-- The `code` column of a joined row (null on unmatched rows). -/
def codeOfJ (j : JoinedRow) : Option String := j.data.bind (·.code)

/-- The `year` column of a joined row (null on unmatched rows). -/
def yearOfJ (j : JoinedRow) : Option Int := j.data.bind (·.year)

/-- The metric column of a joined row (null on unmatched rows). -/
def metricOfJ (j : JoinedRow) : Option ℚ := j.data.bind (·.metric)

/-- The metric value of a joined row known to be non-null (rows of
`country_data` always are). -/
def jval (j : JoinedRow) : ℚ := (metricOfJ j).getD 0

/-- Accessor `country_data`: joined-view rows of the requested year with non-null
metric and non-null geometry (`gdf[gdf["year"] == year].dropna(...)`;
a null year compares unequal to every year). -/
def countryData (st : OwidState) (year : Int) : List JoinedRow :=
  st.merged.filter (fun j =>
    (yearOfJ j == some year) && (metricOfJ j).isSome && j.geo.geometry.isSome)

/-- The column slice `cdf[["entity", "code", val_col, "REGION_UN"]]`
taken by `top_bottom_countries`. -/
structure SlimRow where
  entity : Option String
  code : Option String
  value : Option ℚ
  region_un : String
deriving DecidableEq

/-- Project a joined row onto the columns kept by
`top_bottom_countries`. -/
def slimOf (j : JoinedRow) : SlimRow :=
  { entity := j.data.map (·.entity)
    code := codeOfJ j
    value := metricOfJ j
    region_un := j.geo.region_un }

/-- The slice `cdf_slim`: the sliced year view feeding `nlargest`/`nsmallest`. -/
def slimRows (st : OwidState) (year : Int) : List SlimRow :=
  (countryData st year).map slimOf

/-- The metric value of a slim row (non-null on `country_data` output). -/
def slimVal (s : SlimRow) : ℚ := s.value.getD 0

/-- Embedding of `nlargest(n, val_col)` with `keep="first"`: stable descending sort
by the metric value, then the first `n` rows. -/
def nlargestL (n : Nat) (l : List SlimRow) : List SlimRow :=
  (l.insertionSort (fun a b => slimVal b ≤ slimVal a)).take n

/-- Embedding of `nsmallest(n, val_col)` with `keep="first"`: stable ascending sort
by the metric value, then the first `n` rows. -/
def nsmallestL (n : Nat) (l : List SlimRow) : List SlimRow :=
  (l.insertionSort (fun a b => slimVal a ≤ slimVal b)).take n

/-- The group label `f"Top {n}"`. -/
def topLabel (n : Nat) : String := "Top " ++ toString n

/-- The group label `f"Bottom {n}"`. -/
def bottomLabel (n : Nat) : String := "Bottom " ++ toString n

/-- A row of the `top_bottom_countries` result: a sliced row plus its
`group` label. -/
structure TBRow where
  slim : SlimRow
  group : String
deriving DecidableEq

/-- The method `top_bottom_countries`: the `n` largest rows labelled `Top {n}`
concatenated with the `n` smallest rows labelled `Bottom {n}`. -/
def topBottomCountries (st : OwidState) (year : Int) (n : Nat) : List TBRow :=
  (nlargestL n (slimRows st year)).map (fun s => { slim := s, group := topLabel n })
    ++ (nsmallestL n (slimRows st year)).map (fun s => { slim := s, group := bottomLabel n })

/-- The method `country_timeseries`: mappable rows of the normalized table matching
the code, sorted ascending by year (nulls last). -/
def countryTimeseries (st : OwidState) (iso : String) : List NormRow :=
  (st.datasets.filter (fun r => r.is_mappable && (r.code == some iso))).insertionSort
    (fun a b => optIntLe a.year b.year = true)

/-- The record returned by `country_details`.  `delta`'s outer `Option`
is Python's `None` (no prior-year row); the inner `Option` is NaN, which
arises when the prior-year metric is null. -/
structure DetailRecord where
  entity : String
  region : String
  value : ℚ
  rank : Nat
  delta : Option (Option ℚ)
deriving DecidableEq

/-- Embedding of `Series.rank(ascending=False, method="min")` on a column without
nulls: each value gets one plus the number of strictly greater values. -/
def pandasRankDescMin (vals : List ℚ) : List Nat :=
  vals.map (fun v => 1 + vals.countP (fun u => decide (v < u)))

/-- The method `country_details`: find the first year row with the requested code
(`None` when there is none), then report entity, region, value, the
min-method descending rank at that row's position, and the delta against
the first prior-year entry of the country timeseries. -/
def countryDetails (st : OwidState) (iso : String) (year : Int) :
    Option DetailRecord :=
  let cdf := countryData st year
  match cdf.find? (fun j => codeOfJ j == some iso) with
  | none => none
  | some row =>
    let value := (metricOfJ row).getD 0
    let ranked := pandasRankDescMin (cdf.map jval)
    let rank := ranked.getD (cdf.findIdx (fun j => codeOfJ j == some iso)) 0
    let prev := (countryTimeseries st iso).filter (fun r => r.year == some (year - 1))
    some
      { entity := (row.data.map (·.entity)).getD iso
        region := row.geo.region_un
        value := value
        rank := rank
        delta := prev.head?.map (fun p => p.metric.map (fun q => value - q)) }

/-- The years present in a dataset (the non-null `year` entries). -/
def sourceYears (ds : List NormRow) : List Int := ds.filterMap (·.year)

/-- The claimed join shape: for every geometry row and every year
present in the source, the joined view holds a row for that geometry
carrying that year, or at least a null-filled row for that geometry. -/
@[reducible] def claimC1 (world : List GeoRow) (ds : List NormRow) : Prop :=
  ∀ g ∈ world, ∀ y ∈ sourceYears ds, ∃ j ∈ mergeDatasets world ds,
    j.geo = g ∧ (yearOfJ j = some y ∨ j.data = none)

/-- The claimed coercion behaviour: once the schema checks pass,
normalization always succeeds, whatever the cell contents. -/
@[reducible] def claimC8 (d : RawDataset) : Prop :=
  baseMissing d.cols = [] → (metricCandidates d.cols).length = 1 →
    (preprocessDataset d).isOk = true

/-- The row a raw row normalizes to when its year cell, if numeric, is
integral (the case in which the `Int64` cast cannot raise). -/
def normalizeRowTotal (r : RawRow) : NormRow :=
  { entity := r.entity
    code := r.code
    year := (toNumericQ r.year).map (·.num)
    metric := toNumericQ r.metric
    is_aggregate := isAggregateOf r.code
    is_mappable := isMappableOf r.code }

/-! Concrete instances used by the counterexamples and witnesses. -/

/-- A one-geometry world table. -/
def worldW : List GeoRow :=
  [{ iso_a3_eh := "FRA", region_un := "Europe", geometry := some 0 }]

/-- A mappable France row for the year 2000. -/
def rowFRA : NormRow :=
  { entity := "France", code := some "FRA", year := some 2000, metric := some 1,
    is_aggregate := false, is_mappable := true }

/-- A mappable Germany row for the year 2001. -/
def rowDEU : NormRow :=
  { entity := "Germany", code := some "DEU", year := some 2001, metric := some 2,
    is_aggregate := false, is_mappable := true }

/-- A dataset whose years are 2000 (France) and 2001 (Germany). -/
def dsW : List NormRow := [rowFRA, rowDEU]

/-- A schema-valid raw dataset with a duplicate composite key, an
aggregate row with an unparseable metric, and a non-ISO code with an
unparseable year. -/
def dGood : RawDataset :=
  { cols := ["entity", "code", "year", "forest_area"]
    rows := [
      { entity := "France", code := some "FRA", year := RawCell.num 2000,
        metric := RawCell.num 1 },
      { entity := "France", code := some "FRA", year := RawCell.num 2000,
        metric := RawCell.num 5 },
      { entity := "World", code := some "OWID_WRL", year := RawCell.num 2000,
        metric := RawCell.unparseable },
      { entity := "Oddity", code := some "FR1", year := RawCell.unparseable,
        metric := RawCell.missing }] }

/-- What `dGood` normalizes to (first duplicate kept, rows sorted with
aggregates last). -/
def outGood : List NormRow :=
  [{ entity := "Oddity", code := some "FR1", year := none, metric := none,
     is_aggregate := false, is_mappable := false },
   { entity := "France", code := some "FRA", year := some 2000, metric := some 1,
     is_aggregate := false, is_mappable := true },
   { entity := "World", code := some "OWID_WRL", year := some 2000, metric := none,
     is_aggregate := true, is_mappable := false }]

/-- A schema-valid raw dataset whose single year cell parses to the
non-integral value `4041/2 = 2020.5`. -/
def dFrac : RawDataset :=
  { cols := ["entity", "code", "year", "forest_area"]
    rows := [{ entity := "France", code := some "FRA",
               year := RawCell.num (mkRat 4041 2), metric := RawCell.num 1 }] }

/-- A query state: three matched geometries in the year 2000 with metric
values 1, 2 and 2, and a normalized table holding France's 2000 and 1999
rows. -/
def stW : OwidState :=
  { datasets := [rowFRA,
      { entity := "France", code := some "FRA", year := some 1999,
        metric := some (mkRat 1 2), is_aggregate := false, is_mappable := true }]
    merged := [
      { geo := { iso_a3_eh := "FRA", region_un := "Europe", geometry := some 0 }
        data := some rowFRA },
      { geo := { iso_a3_eh := "DEU", region_un := "Europe", geometry := some 1 }
        data := some { entity := "Germany", code := some "DEU", year := some 2000,
                       metric := some 2, is_aggregate := false, is_mappable := true } },
      { geo := { iso_a3_eh := "ESP", region_un := "Europe", geometry := some 2 }
        data := some { entity := "Spain", code := some "ESP", year := some 2000,
                       metric := some 2, is_aggregate := false, is_mappable := true } }] }

/-- The record `country_details` yields for Germany in `stW`. -/
def recDEU : DetailRecord :=
  { entity := "Germany", region := "Europe", value := 2, rank := 1, delta := none }

instance : IsTotal SlimRow (fun a b => slimVal b ≤ slimVal a) :=
  ⟨fun a b => le_total (slimVal b) (slimVal a)⟩

instance : IsTrans SlimRow (fun a b => slimVal b ≤ slimVal a) :=
  ⟨fun _ _ _ hab hbc => le_trans hbc hab⟩

instance : IsTotal SlimRow (fun a b => slimVal a ≤ slimVal b) :=
  ⟨fun a b => le_total (slimVal a) (slimVal b)⟩

instance : IsTrans SlimRow (fun a b => slimVal a ≤ slimVal b) :=
  ⟨fun _ _ _ hab hbc => le_trans hab hbc⟩

/-! ### Helper lemmas about the normalization pipeline -/

theorem mem_sortRows {r : NormRow} {l : List NormRow} :
    r ∈ sortRows l ↔ r ∈ l :=
  (List.perm_insertionSort _ l).mem_iff

theorem mem_dedupAux :
    ∀ {seen} {l : List NormRow} {r : NormRow},
      r ∈ dedupAux seen l → r ∈ l ∧ keyOf r ∉ seen := by
  intro seen l
  induction l generalizing seen with
  | nil => intro r h; simp [dedupAux] at h
  | cons a t ih =>
    intro r h
    by_cases hk : keyOf a ∈ seen
    · rw [dedupAux, if_pos hk] at h
      obtain ⟨ht, hs⟩ := ih h
      exact ⟨List.mem_cons_of_mem _ ht, hs⟩
    · rw [dedupAux, if_neg hk] at h
      rcases List.mem_cons.mp h with rfl | h'
      · exact ⟨List.mem_cons_self _ _, hk⟩
      · obtain ⟨ht, hs⟩ := ih h'
        exact ⟨List.mem_cons_of_mem _ ht,
          fun hc => hs (List.mem_cons_of_mem _ hc)⟩

theorem pairwise_dedupAux :
    ∀ (seen) (l : List NormRow),
      List.Pairwise (fun a b => keyOf a ≠ keyOf b) (dedupAux seen l) := by
  intro seen l
  induction l generalizing seen with
  | nil => simp [dedupAux]
  | cons a t ih =>
    by_cases hk : keyOf a ∈ seen
    · rw [dedupAux, if_pos hk]; exact ih _
    · rw [dedupAux, if_neg hk]
      refine List.Pairwise.cons ?_ (ih _)
      intro b hb heq
      exact (mem_dedupAux hb).2 (by rw [← heq]; exact List.mem_cons_self _ _)

theorem find?_dedupAux :
    ∀ {seen} {l : List NormRow} {r : NormRow},
      r ∈ dedupAux seen l →
        l.find? (fun x => decide (keyOf x = keyOf r)) = some r := by
  intro seen l
  induction l generalizing seen with
  | nil => intro r h; simp [dedupAux] at h
  | cons a t ih =>
    intro r h
    by_cases hk : keyOf a ∈ seen
    · rw [dedupAux, if_pos hk] at h
      have hne : keyOf a ≠ keyOf r :=
        fun he => (mem_dedupAux h).2 (by rw [← he]; exact hk)
      simp only [List.find?_cons, decide_eq_false hne]
      exact ih h
    · rw [dedupAux, if_neg hk] at h
      rcases List.mem_cons.mp h with rfl | h'
      · simp [List.find?_cons]
      · have hne : keyOf a ≠ keyOf r :=
          fun he => (mem_dedupAux h').2
            (by rw [← he]; exact List.mem_cons_self _ _)
        simp only [List.find?_cons, decide_eq_false hne]
        exact ih h'

theorem normalizeRow_ok_fields {raw : RawRow} {r : NormRow}
    (h : normalizeRow raw = .ok r) :
    r.entity = raw.entity ∧ r.code = raw.code ∧
    r.metric = toNumericQ raw.metric ∧
    r.is_aggregate = isAggregateOf raw.code ∧
    r.is_mappable = isMappableOf raw.code := by
  unfold normalizeRow at h
  cases hc : castYearCell raw.year with
  | error e => rw [hc] at h; simp [Except.map] at h
  | ok y =>
    rw [hc] at h
    simp only [Except.map, Except.ok.injEq] at h
    subst h
    exact ⟨rfl, rfl, rfl, rfl, rfl⟩

theorem preprocessRows_ok_mem :
    ∀ {rows : List RawRow} {rs : List NormRow},
      preprocessRows rows = .ok rs →
        ∀ r ∈ rs, ∃ raw ∈ rows, normalizeRow raw = .ok r := by
  intro rows
  induction rows with
  | nil =>
    intro rs h r hr
    simp only [preprocessRows, Except.ok.injEq] at h
    rw [← h] at hr
    simp at hr
  | cons a t ih =>
    intro rs h r hr
    rw [preprocessRows] at h
    cases hn : normalizeRow a with
    | error e => rw [hn] at h; simp at h
    | ok n =>
      cases ht : preprocessRows t with
      | error e => rw [hn, ht] at h; simp at h
      | ok ns =>
        rw [hn, ht] at h
        simp only [Except.ok.injEq] at h
        rw [← h] at hr
        rcases List.mem_cons.mp hr with rfl | h'
        · exact ⟨a, List.mem_cons_self _ _, hn⟩
        · obtain ⟨raw, hraw, hok⟩ := ih ht r h'
          exact ⟨raw, List.mem_cons_of_mem _ hraw, hok⟩

theorem isMappableOf_eq_true {code : Option String}
    (h : isMappableOf code = true) :
    isAggregateOf code = false ∧
    ∃ s, code = some s ∧ s.length = 3 ∧ ∀ c ∈ s.data, c.isAlpha = true := by
  cases code with
  | none => simp [isMappableOf] at h
  | some s =>
    simp only [isMappableOf, Bool.and_eq_true, Bool.not_eq_true'] at h
    obtain ⟨hagg, hiso⟩ := h
    simp only [isIso3, Bool.and_eq_true, beq_iff_eq, List.all_eq_true] at hiso
    exact ⟨hagg, s, rfl, hiso.1, hiso.2⟩

theorem preprocessDataset_ok {d : RawDataset} {out : List NormRow}
    (h : preprocessDataset d = .ok out) :
    ∃ rs, preprocessRows d.rows = .ok rs ∧ out = sortRows (dedupRows rs) := by
  unfold preprocessDataset at h
  split at h
  · simp at h
  · split at h
    · cases hp : preprocessRows d.rows with
      | error e => rw [hp] at h; simp [Except.map] at h
      | ok rs =>
        rw [hp] at h
        simp only [Except.map, Except.ok.injEq] at h
        exact ⟨rs, rfl, h.symm⟩
    · simp at h

/-! ### Helper lemmas about the geometry join -/

theorem joinBlock_ne_nil (ds : List NormRow) (g : GeoRow) :
    joinBlock ds g ≠ [] := by
  cases hms : (ds.filter (fun r => r.is_mappable)).filter
      (fun r => r.code == some g.iso_a3_eh) with
  | nil => simp [joinBlock, hms]
  | cons a t => simp [joinBlock, hms]

theorem mem_joinBlock_of_match {ds : List NormRow} {g : GeoRow} {r : NormRow}
    (hr : r ∈ ds) (hm : r.is_mappable = true) (hc : r.code = some g.iso_a3_eh) :
    ({ geo := g, data := some r } : JoinedRow) ∈ joinBlock ds g := by
  have h1 : r ∈ (ds.filter (fun r => r.is_mappable)).filter
      (fun r => r.code == some g.iso_a3_eh) := by
    rw [List.mem_filter, List.mem_filter]
    exact ⟨⟨hr, hm⟩, by simp [hc]⟩
  cases hms : (ds.filter (fun r => r.is_mappable)).filter
      (fun r => r.code == some g.iso_a3_eh) with
  | nil => rw [hms] at h1; simp at h1
  | cons a t =>
    rw [hms] at h1
    simp only [joinBlock, hms]
    exact List.mem_map.mpr ⟨r, h1, rfl⟩

theorem joinBlock_of_no_match {ds : List NormRow} {g : GeoRow}
    (hno : ∀ r ∈ ds, r.is_mappable = true → r.code ≠ some g.iso_a3_eh) :
    joinBlock ds g = [{ geo := g, data := none }] := by
  have h0 : (ds.filter (fun r => r.is_mappable)).filter
      (fun r => r.code == some g.iso_a3_eh) = [] := by
    rw [List.filter_eq_nil_iff]
    intro a ha
    rw [List.mem_filter] at ha
    simp only [beq_iff_eq]
    exact hno a ha.1 ha.2
  simp only [joinBlock, h0]

theorem le_length_flatMap {α β : Type} (f : α → List β)
    (hf : ∀ a, f a ≠ []) (l : List α) :
    l.length ≤ (l.flatMap f).length := by
  induction l with
  | nil => simp
  | cons a t ih =>
    rw [List.flatMap_cons, List.length_append, List.length_cons]
    have h1 : 1 ≤ (f a).length := by
      cases hfa : f a with
      | nil => exact absurd hfa (hf a)
      | cons b bs => simp
    omega

/-! ### The claims -/

/-- Claim C9: the joined view has at least as many rows as the geometry
table (left-anchor invariant of the left outer join restricted to
`is_mappable` rows). -/
theorem merged_card_ge_world (world : List GeoRow) (ds : List NormRow) :
    world.length ≤ (mergeDatasets world ds).length :=
  le_length_flatMap (joinBlock ds) (joinBlock_ne_nil ds) world

/-- Claim C1 counterexample: with one geometry (`FRA`) and source years
{2000, 2001} in which `FRA` only has data for 2000, the joined view has
no row pairing the geometry with 2001, and no null-filled row either, so
the claimed per-(geometry, year) coverage fails. -/
theorem merge_per_year_claim_false : ¬ claimC1 worldW dsW := by decide

/-- Claim C1 amended: every geometry row appears in the joined view at
least once; it is paired with each mappable row carrying its code (hence
one row per year in which its code has data); and when no mappable row
carries its code it appears with null metric/year fields. -/
theorem merge_left_anchor_rows (world : List GeoRow) (ds : List NormRow)
    (g : GeoRow) (hg : g ∈ world) :
    (∃ j ∈ mergeDatasets world ds, j.geo = g) ∧
    (∀ r ∈ ds, r.is_mappable = true → r.code = some g.iso_a3_eh →
      ({ geo := g, data := some r } : JoinedRow) ∈ mergeDatasets world ds) ∧
    ((∀ r ∈ ds, r.is_mappable = true → r.code ≠ some g.iso_a3_eh) →
      ({ geo := g, data := none } : JoinedRow) ∈ mergeDatasets world ds) := by
  refine ⟨?_, ?_, ?_⟩
  · cases hb : joinBlock ds g with
    | nil => exact absurd hb (joinBlock_ne_nil ds g)
    | cons j js =>
      refine ⟨j, List.mem_flatMap.mpr
        ⟨g, hg, by rw [hb]; exact List.mem_cons_self _ _⟩, ?_⟩
      have hj : j ∈ joinBlock ds g := by rw [hb]; exact List.mem_cons_self _ _
      revert hj
      cases hms : (ds.filter (fun r => r.is_mappable)).filter
          (fun r => r.code == some g.iso_a3_eh) with
      | nil =>
        simp only [joinBlock, hms]
        intro hj
        rw [List.mem_singleton.mp hj]
      | cons a t =>
        simp only [joinBlock, hms]
        intro hj
        obtain ⟨r, _, hr⟩ := List.mem_map.mp hj
        rw [← hr]
  · intro r hr hm hc
    exact List.mem_flatMap.mpr ⟨g, hg, mem_joinBlock_of_match hr hm hc⟩
  · intro hno
    exact List.mem_flatMap.mpr
      ⟨g, hg, by rw [joinBlock_of_no_match hno]; exact List.mem_cons_self _ _⟩

theorem merge_left_anchor_rows_witness :
    ∃ j ∈ mergeDatasets worldW dsW,
      j.geo = { iso_a3_eh := "FRA", region_un := "Europe", geometry := some 0 } :=
  (merge_left_anchor_rows worldW dsW
    { iso_a3_eh := "FRA", region_un := "Europe", geometry := some 0 } (by decide)).1

/-- Claim C2: in every normalized dataset, a row flagged `is_mappable` is
not an aggregate and carries a code of exactly three alphabetic
characters. -/
theorem mappable_implies_iso3 (d : RawDataset) (out : List NormRow)
    (h : preprocessDataset d = .ok out) :
    ∀ r ∈ out, r.is_mappable = true →
      r.is_aggregate = false ∧
      ∃ s, r.code = some s ∧ s.length = 3 ∧ ∀ c ∈ s.data, c.isAlpha = true := by
  obtain ⟨rs, hrs, rfl⟩ := preprocessDataset_ok h
  intro r hr hm
  have hr3 : r ∈ rs := (mem_dedupAux (mem_sortRows.mp hr)).1
  obtain ⟨raw, _, hok⟩ := preprocessRows_ok_mem hrs r hr3
  obtain ⟨_, hcode, _, hagg, hmap⟩ := normalizeRow_ok_fields hok
  rw [hmap] at hm
  obtain ⟨ha, s, hs, h3, hall⟩ := isMappableOf_eq_true hm
  exact ⟨by rw [hagg, ha], s, by rw [hcode, hs], h3, hall⟩

theorem mappable_implies_iso3_witness :
    rowFRA.is_aggregate = false ∧
    ∃ s, rowFRA.code = some s ∧ s.length = 3 ∧ ∀ c ∈ s.data, c.isAlpha = true :=
  mappable_implies_iso3 dGood outGood (by decide) rowFRA (by decide) (by decide)

/-- Claim C3: normalization leaves no two rows sharing the composite key
(entity, code, year), and each surviving row is the first row of the
(order-preserving) per-row normalization of the input that carries its
key. -/
theorem dedup_unique_and_first_kept (d : RawDataset) (out : List NormRow)
    (h : preprocessDataset d = .ok out) :
    List.Pairwise (fun a b => keyOf a ≠ keyOf b) out ∧
    ∃ rs, preprocessRows d.rows = .ok rs ∧
      ∀ r ∈ out, rs.find? (fun x => decide (keyOf x = keyOf r)) = some r := by
  obtain ⟨rs, hrs, rfl⟩ := preprocessDataset_ok h
  constructor
  · have hperm := List.perm_insertionSort (fun a b => rowLE a b = true) (dedupRows rs)
    exact (hperm.pairwise_iff (fun {x y} hxy he => hxy he.symm)).mpr
      (pairwise_dedupAux [] rs)
  · exact ⟨rs, hrs, fun r hr => find?_dedupAux (mem_sortRows.mp hr)⟩

theorem dedup_unique_and_first_kept_witness :
    List.Pairwise (fun a b => keyOf a ≠ keyOf b) outGood :=
  (dedup_unique_and_first_kept dGood outGood (by decide)).1

/-- Claim C7: metric detection (in normalization and in the accessor)
takes all columns outside the five known non-metric names as candidates,
succeeds with the unique candidate exactly when there is one, and
otherwise fails with an error naming the candidates. -/
theorem metric_column_detection (cols : List String) :
    (∀ c, valueColumnOf cols = .ok c ↔ metricCandidates cols = [c]) ∧
    ((metricCandidates cols).length ≠ 1 →
      valueColumnOf cols = .error (.metricProblem (metricCandidates cols))) ∧
    (∀ d : RawDataset, d.cols = cols → baseMissing cols = [] →
      (metricCandidates cols).length ≠ 1 →
      preprocessDataset d = .error (.metricProblem (metricCandidates cols))) := by
  refine ⟨?_, ?_, ?_⟩
  · intro c
    unfold valueColumnOf
    cases hmc : metricCandidates cols with
    | nil => simp
    | cons c0 cs =>
      cases cs with
      | nil => simp
      | cons c1 cs' => simp
  · intro hlen
    unfold valueColumnOf
    cases hmc : metricCandidates cols with
    | nil => rfl
    | cons c0 cs =>
      cases cs with
      | nil => rw [hmc] at hlen; simp at hlen
      | cons c1 cs' => rfl
  · intro d hd hbase hlen
    unfold preprocessDataset
    rw [hd, if_neg (fun hne => hne hbase)]
    cases hmc : metricCandidates cols with
    | nil => rfl
    | cons c0 cs =>
      cases cs with
      | nil => rw [hmc] at hlen; simp at hlen
      | cons c1 cs' => rfl

theorem metric_column_detection_witness :
    valueColumnOf ["entity", "code", "year", "forest_area"] =
      .ok "forest_area" :=
  ((metric_column_detection ["entity", "code", "year", "forest_area"]).1
    "forest_area").mpr (by decide)

/-- Claim C8 counterexample: a schema-valid dataset whose single year
cell parses to the non-integral 2020.5 makes the `Int64` cast raise, so
normalization does not succeed on every schema-valid input. -/
theorem coercion_claim_false : ¬ claimC8 dFrac := by decide

theorem preprocessRows_total {rows : List RawRow}
    (hyears : ∀ r ∈ rows, ((toNumericQ r.year).all fun q => q.den == 1) = true) :
    preprocessRows rows = .ok (rows.map normalizeRowTotal) := by
  induction rows with
  | nil => rfl
  | cons a t ih =>
    have ha := hyears a (List.mem_cons_self _ _)
    have hn : normalizeRow a = .ok (normalizeRowTotal a) := by
      unfold normalizeRow castYearCell normalizeRowTotal
      cases hy : toNumericQ a.year with
      | none => simp [Except.map]
      | some q =>
        rw [hy] at ha
        have hden : q.den = 1 := by simpa [Option.all] using ha
        simp [Except.map, hden]
    rw [preprocessRows, hn,
      ih (fun r hr => hyears r (List.mem_cons_of_mem _ hr))]
    rfl

/-- Claim C8 amended: once the schema checks pass and every parseable
year value is integral, normalization succeeds; each row's year is the
null-propagating numeric coercion of its year cell (so unparseable and
missing cells become null) and likewise for the metric; but a year
parsing to a non-integral value makes the `Int64` cast raise. -/
theorem coercion_nulls_amended (d : RawDataset)
    (hbase : baseMissing d.cols = [])
    (hmetric : (metricCandidates d.cols).length = 1)
    (hyears : ∀ r ∈ d.rows, ((toNumericQ r.year).all fun q => q.den == 1) = true) :
    preprocessRows d.rows = .ok (d.rows.map normalizeRowTotal) ∧
    preprocessDataset d =
      .ok (sortRows (dedupRows (d.rows.map normalizeRowTotal))) := by
  have h1 := preprocessRows_total hyears
  refine ⟨h1, ?_⟩
  unfold preprocessDataset
  rw [if_neg (fun hne => hne hbase)]
  obtain ⟨c, hc⟩ := List.length_eq_one.mp hmetric
  rw [hc, h1]
  rfl

theorem coercion_nulls_amended_witness :
    preprocessRows dGood.rows = .ok (dGood.rows.map normalizeRowTotal) :=
  (coercion_nulls_amended dGood (by decide) (by decide) (by decide)).1

/-! ### Helper lemmas about `country_details` -/

theorem find?_getD {α : Type} (p : α → Bool) :
    ∀ (l : List α) (x : α), l.find? p = some x →
      l.findIdx p < l.length ∧ ∀ d, l.getD (l.findIdx p) d = x := by
  intro l
  induction l with
  | nil => intro x h; simp at h
  | cons a t ih =>
    intro x h
    cases hpa : p a with
    | true =>
      simp only [List.find?_cons, hpa, Option.some.injEq] at h
      subst h
      refine ⟨by simp [List.findIdx_cons, hpa], fun d => ?_⟩
      simp [List.findIdx_cons, hpa]
    | false =>
      simp only [List.find?_cons, hpa] at h
      obtain ⟨h1, h2⟩ := ih x h
      simp only [List.findIdx_cons, hpa, cond_false]
      exact ⟨by simp only [List.length_cons]; omega,
        fun d => by rw [List.getD_cons_succ]; exact h2 d⟩

theorem countryDetails_eq_none_iff (st : OwidState) (iso : String) (year : Int) :
    countryDetails st iso year = none ↔
      (countryData st year).find? (fun j => codeOfJ j == some iso) = none := by
  simp only [countryDetails]
  cases hf : (countryData st year).find? (fun j => codeOfJ j == some iso) with
  | none => simp
  | some row => simp

theorem getD_map {α β : Type} (f : α → β) (l : List α) (i : Nat)
    (hi : i < l.length) (d : β) (e : α) :
    (l.map f).getD i d = f (l.getD i e) := by
  have hi2 : i < (l.map f).length := by rw [List.length_map]; exact hi
  rw [List.getD_eq_getElem _ _ hi2, List.getD_eq_getElem _ _ hi, List.getElem_map]

theorem countryDetails_some {st : OwidState} {iso : String} {year : Int}
    {row : JoinedRow}
    (hf : (countryData st year).find? (fun j => codeOfJ j == some iso) = some row) :
    countryDetails st iso year = some
      { entity := (row.data.map (·.entity)).getD iso
        region := row.geo.region_un
        value := (metricOfJ row).getD 0
        rank := 1 + (countryData st year).countP
          (fun j => decide (jval row < jval j))
        delta := ((countryTimeseries st iso).filter
            (fun r => r.year == some (year - 1))).head?.map
          (fun p => p.metric.map (fun q => (metricOfJ row).getD 0 - q)) } := by
  obtain ⟨hlt, hget⟩ := find?_getD _ (countryData st year) row hf
  have hlt2 : (countryData st year).findIdx (fun j => codeOfJ j == some iso) <
      ((countryData st year).map jval).length := by
    rw [List.length_map]; exact hlt
  have hranked : (pandasRankDescMin ((countryData st year).map jval)).getD
      ((countryData st year).findIdx (fun j => codeOfJ j == some iso)) 0
      = 1 + (countryData st year).countP (fun j => decide (jval row < jval j)) := by
    rw [pandasRankDescMin, getD_map _ _ _ hlt2 0 0, getD_map jval _ _ hlt 0 row,
      hget row]
    simp only [List.countP_map]
    rfl
  simp only [countryDetails]
  rw [hf, hranked]

theorem countryDetails_fields {st : OwidState} {iso : String} {year : Int}
    {row : JoinedRow} {rec : DetailRecord}
    (hf : (countryData st year).find? (fun j => codeOfJ j == some iso) = some row)
    (h : countryDetails st iso year = some rec) :
    rec.value = (metricOfJ row).getD 0 ∧
    rec.rank = 1 + (countryData st year).countP
      (fun j => decide (jval row < jval j)) ∧
    rec.delta = ((countryTimeseries st iso).filter
        (fun r => r.year == some (year - 1))).head?.map
      (fun p => p.metric.map (fun q => rec.value - q)) := by
  have hsome := countryDetails_some hf
  rw [h] at hsome
  cases Option.some.inj hsome
  exact ⟨rfl, rfl, rfl⟩

/-- Claim C5: when `country_details` finds a record, the reported rank is
one plus the number of year rows with a strictly greater metric value;
hence the maximum-valued row gets rank 1 and equal values share equal
ranks. -/
theorem country_detail_rank_min (st : OwidState) (iso : String) (year : Int)
    (rec : DetailRecord) (h : countryDetails st iso year = some rec) :
    ∃ row, (countryData st year).find? (fun j => codeOfJ j == some iso) = some row ∧
      rec.rank = 1 + (countryData st year).countP
        (fun j => decide (jval row < jval j)) ∧
      ((∀ j ∈ countryData st year, jval j ≤ jval row) → rec.rank = 1) ∧
      (∀ iso₂ rec₂ row₂, countryDetails st iso₂ year = some rec₂ →
        (countryData st year).find? (fun j => codeOfJ j == some iso₂) = some row₂ →
        jval row₂ = jval row → rec₂.rank = rec.rank) := by
  cases hf : (countryData st year).find? (fun j => codeOfJ j == some iso) with
  | none =>
    rw [(countryDetails_eq_none_iff st iso year).mpr hf] at h
    exact absurd h (by simp)
  | some row =>
    have hrank := (countryDetails_fields hf h).2.1
    refine ⟨row, rfl, hrank, ?_, ?_⟩
    · intro hmax
      have h0 : (countryData st year).countP
          (fun j => decide (jval row < jval j)) = 0 :=
        List.countP_eq_zero.mpr
          (fun j hj => by simpa using not_lt.mpr (hmax j hj))
      rw [hrank, h0]
    · intro iso₂ rec₂ row₂ h₂ hf₂ hval
      have hrank₂ := (countryDetails_fields hf₂ h₂).2.1
      rw [hrank, hrank₂, hval]

theorem country_detail_rank_min_witness :
    ∃ row, (countryData stW 2000).find?
        (fun j => codeOfJ j == some "DEU") = some row ∧
      recDEU.rank = 1 + (countryData stW 2000).countP
        (fun j => decide (jval row < jval j)) ∧
      ((∀ j ∈ countryData stW 2000, jval j ≤ jval row) → recDEU.rank = 1) ∧
      (∀ iso₂ rec₂ row₂, countryDetails stW iso₂ 2000 = some rec₂ →
        (countryData stW 2000).find? (fun j => codeOfJ j == some iso₂) = some row₂ →
        jval row₂ = jval row → rec₂.rank = recDEU.rank) :=
  country_detail_rank_min stW "DEU" 2000 recDEU (by decide)

/-- Claim C6: `country_details` yields an explicit no-record result (not
an error) exactly when no year row matches the code; on a found record,
`delta` is absent exactly when no prior-year entry exists in the
country's timeseries, and otherwise equals the record's value minus the
prior-year value. -/
theorem country_detail_no_record_and_delta (st : OwidState) (iso : String)
    (year : Int) :
    (countryDetails st iso year = none ↔
      (countryData st year).find? (fun j => codeOfJ j == some iso) = none) ∧
    ∀ rec, countryDetails st iso year = some rec →
      ((rec.delta = none ↔
          (countryTimeseries st iso).filter
            (fun r => r.year == some (year - 1)) = []) ∧
       ∀ p, ((countryTimeseries st iso).filter
             (fun r => r.year == some (year - 1))).head? = some p →
           rec.delta = some (p.metric.map (fun q => rec.value - q))) := by
  refine ⟨countryDetails_eq_none_iff st iso year, ?_⟩
  intro rec h
  cases hf : (countryData st year).find? (fun j => codeOfJ j == some iso) with
  | none =>
    rw [(countryDetails_eq_none_iff st iso year).mpr hf] at h
    exact absurd h (by simp)
  | some row =>
    have hdelta := (countryDetails_fields hf h).2.2
    constructor
    · rw [hdelta, Option.map_eq_none', List.head?_eq_none_iff]
    · intro p hp
      rw [hdelta, hp]
      rfl

theorem country_detail_no_record_and_delta_witness :
    countryDetails stW "ZZZ" 2000 = none :=
  (country_detail_no_record_and_delta stW "ZZZ" 2000).1.mpr (by decide)

/-! ### Helper lemmas about `top_bottom_countries` -/

theorem topLabel_ne_bottomLabel (n : Nat) : topLabel n ≠ bottomLabel n := by
  intro h
  have hlen := congrArg String.length h
  rw [topLabel, bottomLabel, String.length_append, String.length_append] at hlen
  have h4 : ("Top " : String).length = 4 := rfl
  have h7 : ("Bottom " : String).length = 7 := rfl
  rw [h4, h7] at hlen
  omega

theorem length_nlargestL (n : Nat) (l : List SlimRow) :
    (nlargestL n l).length = min n l.length := by
  rw [nlargestL, List.length_take, (List.perm_insertionSort _ l).length_eq]

theorem length_nsmallestL (n : Nat) (l : List SlimRow) :
    (nsmallestL n l).length = min n l.length := by
  rw [nsmallestL, List.length_take, (List.perm_insertionSort _ l).length_eq]

theorem length_topBottomCountries (st : OwidState) (year : Int) (n : Nat) :
    (topBottomCountries st year n).length =
      min n (slimRows st year).length + min n (slimRows st year).length := by
  rw [topBottomCountries, List.length_append, List.length_map, List.length_map,
    length_nlargestL, length_nsmallestL]

theorem nlargest_ge_nsmallest {l : List SlimRow} {n : Nat}
    (h2 : 2 * n ≤ l.length) :
    ∀ x ∈ nlargestL n l, ∀ y ∈ nsmallestL n l, slimVal y ≤ slimVal x := by
  intro x hx y hy
  by_contra hcon
  push_neg at hcon
  have hD := List.perm_insertionSort (fun a b => slimVal b ≤ slimVal a) l
  have hA := List.perm_insertionSort (fun a b => slimVal a ≤ slimVal b) l
  have hsD := List.sorted_insertionSort (fun a b => slimVal b ≤ slimVal a) l
  have hsA := List.sorted_insertionSort (fun a b => slimVal a ≤ slimVal b) l
  rw [nlargestL] at hx
  rw [nsmallestL] at hy
  obtain ⟨i, hi, hxi⟩ := List.getElem_of_mem hx
  obtain ⟨j, hj, hyj⟩ := List.getElem_of_mem hy
  rw [List.length_take, lt_min_iff] at hi hj
  obtain ⟨hin, hiD⟩ := hi
  obtain ⟨hjn, hjA⟩ := hj
  rw [List.getElem_take] at hxi hyj
  set P : SlimRow → Bool := fun e => decide (slimVal y ≤ slimVal e) with hP
  have hAcount : (l.insertionSort (fun a b => slimVal a ≤ slimVal b)).length - j ≤
      (l.insertionSort (fun a b => slimVal a ≤ slimVal b)).countP P := by
    have hsplit : (l.insertionSort (fun a b => slimVal a ≤ slimVal b)).countP P =
        ((l.insertionSort (fun a b => slimVal a ≤ slimVal b)).take j).countP P +
        ((l.insertionSort (fun a b => slimVal a ≤ slimVal b)).drop j).countP P := by
      conv_lhs =>
        rw [← List.take_append_drop j
          (l.insertionSort (fun a b => slimVal a ≤ slimVal b))]
      rw [List.countP_append]
    have hdrop : ((l.insertionSort (fun a b => slimVal a ≤ slimVal b)).drop j).countP P =
        ((l.insertionSort (fun a b => slimVal a ≤ slimVal b)).drop j).length := by
      rw [List.countP_eq_length]
      intro e he
      obtain ⟨k, hk, hek⟩ := List.getElem_of_mem he
      rw [List.getElem_drop] at hek
      have hjk : j + k < (l.insertionSort (fun a b => slimVal a ≤ slimVal b)).length := by
        rw [List.length_drop] at hk
        omega
      rcases Nat.eq_zero_or_pos k with rfl | hkpos
      · have : e = y := by rw [← hek, ← hyj]; simp
        rw [this, hP]
        simp
      · have hrel := List.pairwise_iff_getElem.mp hsA j (j + k) hjA hjk (by omega)
        rw [hyj] at hrel
        rw [hP, ← hek]
        simpa using hrel
    rw [hsplit, hdrop, List.length_drop]
    omega
  have hDcount : (l.insertionSort (fun a b => slimVal b ≤ slimVal a)).countP P ≤ i := by
    have hsplit : (l.insertionSort (fun a b => slimVal b ≤ slimVal a)).countP P =
        ((l.insertionSort (fun a b => slimVal b ≤ slimVal a)).take i).countP P +
        ((l.insertionSort (fun a b => slimVal b ≤ slimVal a)).drop i).countP P := by
      conv_lhs =>
        rw [← List.take_append_drop i
          (l.insertionSort (fun a b => slimVal b ≤ slimVal a))]
      rw [List.countP_append]
    have hdrop : ((l.insertionSort (fun a b => slimVal b ≤ slimVal a)).drop i).countP P
        = 0 := by
      rw [List.countP_eq_zero]
      intro e he
      obtain ⟨k, hk, hek⟩ := List.getElem_of_mem he
      rw [List.getElem_drop] at hek
      have hik : i + k < (l.insertionSort (fun a b => slimVal b ≤ slimVal a)).length := by
        rw [List.length_drop] at hk
        omega
      rcases Nat.eq_zero_or_pos k with rfl | hkpos
      · have : e = x := by rw [← hek, ← hxi]; simp
        rw [this, hP]
        simpa using hcon
      · have hrel := List.pairwise_iff_getElem.mp hsD i (i + k) hiD hik (by omega)
        rw [hxi] at hrel
        rw [hP, ← hek]
        simp only [decide_eq_true_eq]
        intro habs
        exact absurd (le_trans habs hrel) (not_le.mpr hcon)
    have htake : ((l.insertionSort (fun a b => slimVal b ≤ slimVal a)).take i).countP P ≤
        ((l.insertionSort (fun a b => slimVal b ≤ slimVal a)).take i).length :=
      List.countP_le_length P
    rw [hsplit, hdrop]
    have hlen2 : ((l.insertionSort (fun a b => slimVal b ≤ slimVal a)).take i).length
        ≤ i := by
      rw [List.length_take]
      exact Nat.min_le_left _ _
    omega
  have heq : (l.insertionSort (fun a b => slimVal a ≤ slimVal b)).countP P =
      (l.insertionSort (fun a b => slimVal b ≤ slimVal a)).countP P := by
    rw [hA.countP_eq P, ← hD.countP_eq P]
  have hAlen := hA.length_eq
  omega

/-- Claim C4: `top_bottom_countries` returns at most `2n` rows; when `n`
is at most half the year row count every `Top {n}` row's value is at
least every `Bottom {n}` row's value; and when fewer than `n` rows exist
the call still succeeds, returning each existing row in both groups. -/
theorem top_bottom_bounds (st : OwidState) (year : Int) (n : Nat)
    (hm : 0 < (slimRows st year).length) (hn : 0 < n) :
    (topBottomCountries st year n).length ≤ 2 * n ∧
    (n ≤ (slimRows st year).length / 2 →
      ∀ x ∈ topBottomCountries st year n, x.group = topLabel n →
      ∀ y ∈ topBottomCountries st year n, y.group = bottomLabel n →
        slimVal y.slim ≤ slimVal x.slim) ∧
    ((slimRows st year).length < n →
      (topBottomCountries st year n).length = 2 * (slimRows st year).length) := by
  refine ⟨?_, ?_, ?_⟩
  · rw [length_topBottomCountries]
    have := Nat.min_le_left n (slimRows st year).length
    omega
  · intro hhalf x hx hgx y hy hgy
    have h2n : 2 * n ≤ (slimRows st year).length := by
      have := (Nat.le_div_iff_mul_le (show 0 < 2 by norm_num)).mp hhalf
      omega
    rw [topBottomCountries] at hx hy
    rcases List.mem_append.mp hx with hx' | hx'
    · obtain ⟨sx, hsx, rfl⟩ := List.mem_map.mp hx'
      rcases List.mem_append.mp hy with hy' | hy'
      · obtain ⟨sy, hsy, rfl⟩ := List.mem_map.mp hy'
        exact absurd hgy (topLabel_ne_bottomLabel n)
      · obtain ⟨sy, hsy, rfl⟩ := List.mem_map.mp hy'
        exact nlargest_ge_nsmallest h2n sx hsx sy hsy
    · obtain ⟨sx, hsx, rfl⟩ := List.mem_map.mp hx'
      exact absurd hgx.symm (topLabel_ne_bottomLabel n)
  · intro hlt
    rw [length_topBottomCountries, Nat.min_eq_right (Nat.le_of_lt hlt)]
    omega

theorem top_bottom_bounds_witness :
    (topBottomCountries stW 2000 1).length ≤ 2 * 1 :=
  (top_bottom_bounds stW 2000 1 (by decide) (by decide)).1

/-- Claim C10: when `0 < m < 2n` rows exist for the year, some row appears
in both the `Top {n}` and `Bottom {n}` groups; and when `m ≤ n` the
result lists every row of the set exactly twice (`2m` rows). -/
theorem top_bottom_overlap (st : OwidState) (year : Int) (n : Nat)
    (hm : 0 < (slimRows st year).length)
    (hlt : (slimRows st year).length < 2 * n) :
    (∃ r : SlimRow,
        ({ slim := r, group := topLabel n } : TBRow) ∈ topBottomCountries st year n ∧
        ({ slim := r, group := bottomLabel n } : TBRow) ∈ topBottomCountries st year n) ∧
    ((slimRows st year).length ≤ n →
      (topBottomCountries st year n).length = 2 * (slimRows st year).length ∧
      ∀ r : SlimRow,
        ((topBottomCountries st year n).map (·.slim)).count r =
          2 * (slimRows st year).count r) := by
  have hD := List.perm_insertionSort (fun a b => slimVal b ≤ slimVal a) (slimRows st year)
  have hA := List.perm_insertionSort (fun a b => slimVal a ≤ slimVal b) (slimRows st year)
  constructor
  · by_cases hmn : (slimRows st year).length ≤ n
    · have htop : nlargestL n (slimRows st year) =
          (slimRows st year).insertionSort (fun a b => slimVal b ≤ slimVal a) :=
        List.take_of_length_le (by rw [hD.length_eq]; exact hmn)
      have hbot : nsmallestL n (slimRows st year) =
          (slimRows st year).insertionSort (fun a b => slimVal a ≤ slimVal b) :=
        List.take_of_length_le (by rw [hA.length_eq]; exact hmn)
      have hne : (slimRows st year).insertionSort
          (fun a b => slimVal b ≤ slimVal a) ≠ [] := by
        intro h0
        have := hD.length_eq
        rw [h0] at this
        simp at this
        omega
      obtain ⟨r, hr⟩ := List.exists_mem_of_ne_nil _ hne
      refine ⟨r, ?_, ?_⟩
      · rw [topBottomCountries]
        exact List.mem_append_left _
          (List.mem_map_of_mem _ (by rw [htop]; exact hr))
      · rw [topBottomCountries]
        refine List.mem_append_right _
          (List.mem_map_of_mem _ (by rw [hbot]; exact (hA.mem_iff).mpr (hD.mem_iff.mp hr)))
    · push_neg at hmn
      by_contra hno
      push_neg at hno
      have hdisj : ∀ r, r ∈ nlargestL n (slimRows st year) →
          r ∉ nsmallestL n (slimRows st year) := by
        intro r hrt hrb
        refine hno r ?_ ?_
        · rw [topBottomCountries]
          exact List.mem_append_left _ (List.mem_map_of_mem _ hrt)
        · rw [topBottomCountries]
          exact List.mem_append_right _ (List.mem_map_of_mem _ hrb)
      have hcount : ∀ r : SlimRow,
          (nlargestL n (slimRows st year)).count r +
          (nsmallestL n (slimRows st year)).count r ≤
          (slimRows st year).count r := by
        intro r
        have hct : (nlargestL n (slimRows st year)).count r ≤
            (slimRows st year).count r := by
          calc (nlargestL n (slimRows st year)).count r
              ≤ ((slimRows st year).insertionSort
                  (fun a b => slimVal b ≤ slimVal a)).count r :=
                (List.take_sublist _ _).count_le r
            _ = (slimRows st year).count r := hD.count_eq r
        have hcb : (nsmallestL n (slimRows st year)).count r ≤
            (slimRows st year).count r := by
          calc (nsmallestL n (slimRows st year)).count r
              ≤ ((slimRows st year).insertionSort
                  (fun a b => slimVal a ≤ slimVal b)).count r :=
                (List.take_sublist _ _).count_le r
            _ = (slimRows st year).count r := hA.count_eq r
        by_cases hrt : r ∈ nlargestL n (slimRows st year)
        · rw [List.count_eq_zero.mpr (hdisj r hrt)]
          omega
        · rw [List.count_eq_zero.mpr hrt]
          omega
      have hle : (↑(nlargestL n (slimRows st year)) : Multiset SlimRow) +
          ↑(nsmallestL n (slimRows st year)) ≤ ↑(slimRows st year) := by
        rw [Multiset.le_iff_count]
        intro a
        rw [Multiset.count_add, Multiset.coe_count, Multiset.coe_count,
          Multiset.coe_count]
        exact hcount a
      have hcard := Multiset.card_le_card hle
      rw [Multiset.card_add, Multiset.coe_card, Multiset.coe_card,
        Multiset.coe_card, length_nlargestL, length_nsmallestL,
        Nat.min_eq_left (Nat.le_of_lt hmn)] at hcard
      omega
  · intro hmn
    have htop : nlargestL n (slimRows st year) =
        (slimRows st year).insertionSort (fun a b => slimVal b ≤ slimVal a) :=
      List.take_of_length_le (by rw [hD.length_eq]; exact hmn)
    have hbot : nsmallestL n (slimRows st year) =
        (slimRows st year).insertionSort (fun a b => slimVal a ≤ slimVal b) :=
      List.take_of_length_le (by rw [hA.length_eq]; exact hmn)
    constructor
    · rw [length_topBottomCountries, Nat.min_eq_right hmn]
      omega
    · intro r
      rw [topBottomCountries, List.map_append, List.map_map, List.map_map]
      have hmap : ∀ lab : String,
          ((fun t : TBRow => t.slim) ∘ fun s => { slim := s, group := lab }) =
            fun s : SlimRow => s := by
        intro lab
        funext s
        rfl
      rw [hmap, hmap, List.map_id', List.map_id', List.count_append, htop, hbot,
        hD.count_eq r, hA.count_eq r]
      omega

theorem top_bottom_overlap_witness :
    ∃ r : SlimRow,
      ({ slim := r, group := topLabel 2 } : TBRow) ∈ topBottomCountries stW 2000 2 ∧
      ({ slim := r, group := bottomLabel 2 } : TBRow) ∈ topBottomCountries stW 2000 2 :=
  (top_bottom_overlap stW 2000 2 (by decide) (by decide)).1

end Okavango
